import Mathlib

/-!
# SkillBridge `static/js/main.js`

A shallow embedding of the page bootstrap script

```
document.addEventListener("DOMContentLoaded", function () {
  console.log("SkillBridge JavaScript loaded");
  document.querySelectorAll(".dropdown-item").forEach((item) => {
    item.addEventListener("click", function () {
    });
  });
});
```

The script is stateful only through the host page, so the page is an explicit
state (`Page`) and every statement of the script is a function `Page → Page`.
The host primitives the script calls (`console.log`, `querySelectorAll`,
`addEventListener`, event dispatch) are modelled after the DOM standard:

* elements are kept in document (tree) order, the tree being encoded by the
  depth of each element; an element is referred to by its identity `nid`;
* `addEventListener` appends a listener unless an equal one (same type, same
  function object) is already in the list;
* a function expression evaluates to a new function object each time, so a
  function value carries an identity drawn from an allocator;
* a click dispatched at an element runs the click listeners of the element,
  then of its ancestors, then of the document (bubbling).

A ghost `trace` records the effects in the order they happen.
-/

namespace SkillBridge

/-! ## Data model -/

/-- The two function expressions of main.js that become listeners. -/
inductive FnBody where
  /-- The body of the `DOMContentLoaded` listener (lines 2-12). -/
  | bootstrap
  /-- The body of the `click` listener (lines 8-10), which is empty. -/
  | dropdownClick
deriving DecidableEq, Repr

/-- A function object: the identity it got when its expression was evaluated,
and the code it runs. -/
structure Fn where
  id : Nat
  body : FnBody
deriving DecidableEq, Repr

/-- An entry of an event listener list (the script never passes `capture`). -/
structure Listener where
  type : String
  callback : Fn
deriving DecidableEq, Repr

/-- An element of the document. -/
structure Element where
  nid : Nat
  depth : Nat
  classes : List String
  listeners : List Listener
deriving DecidableEq, Repr

/-- The selectors the script uses: a class selector `.name`. -/
inductive Selector where
  | cls (name : String)
deriving DecidableEq, Repr

/-- An event target: the document or one of its elements. -/
inductive Target where
  | document
  | element (nid : Nat)
deriving DecidableEq, Repr

/-- The effects recorded in the trace. -/
inductive Effect where
  | log (msg : String)
  | query (sel : Selector)
  | addListener (target : Target) (l : Listener)
  | invoke (f : Fn)
deriving DecidableEq, Repr

/-- The state of a page. -/
structure Page where
  /-- The elements of the document, in document order. -/
  elements : List Element
  /-- The event listener list of the document itself. -/
  docListeners : List Listener
  /-- The lines written to the developer console. -/
  console : List String
  /-- The identity the next function object gets. -/
  nextFn : Nat
  /-- The identity the next element gets. -/
  nextNode : Nat
  /-- The effects so far, oldest first. -/
  trace : List Effect
deriving DecidableEq, Repr

/-! ## Host primitives -/

/-- Does the selector match the element? `.name` matches an element whose
class list holds `name`. -/
def Selector.selects : Selector → Element → Bool
  | .cls name, e => decide (name ∈ e.classes)

/-- The host's `console.log(msg)`. -/
def consoleLog (msg : String) (p : Page) : Page :=
  { p with console := p.console ++ [msg], trace := p.trace ++ [.log msg] }

/-- The host's `document.querySelectorAll(sel)`: the matching elements, in document
order, as a static list of references. -/
def querySelectorAll (sel : Selector) (p : Page) : List Nat × Page :=
  ((p.elements.filter sel.selects).map (·.nid),
   { p with trace := p.trace ++ [.query sel] })

/-- Adding to an event listener list: nothing happens when an equal listener is
already there. -/
def addListenerTo (ls : List Listener) (l : Listener) : List Listener :=
  if l ∈ ls then ls else ls ++ [l]

/-- The host's `item.addEventListener(type, callback)` on the element `target`. -/
def elementAddEventListener (target : Nat) (type : String) (callback : Fn)
    (p : Page) : Page :=
  { p with
    elements := p.elements.map fun e =>
      if e.nid = target then
        { e with listeners := addListenerTo e.listeners ⟨type, callback⟩ }
      else e
    trace := p.trace ++ [.addListener (.element target) ⟨type, callback⟩] }

/-- The host's `document.addEventListener(type, callback)`. -/
def documentAddEventListener (type : String) (callback : Fn) (p : Page) : Page :=
  { p with
    docListeners := addListenerTo p.docListeners ⟨type, callback⟩
    trace := p.trace ++ [.addListener .document ⟨type, callback⟩] }

/-- Evaluating a function expression: a new function object. -/
def newFunction (body : FnBody) (p : Page) : Fn × Page :=
  (⟨p.nextFn, body⟩, { p with nextFn := p.nextFn + 1 })

/-- The host's `forEach(callback)` on a list of element references: the callback on
each item, in the order of the list. -/
def forEach (items : List Nat) (callback : Nat → Page → Page) (p : Page) : Page :=
  items.foldl (fun q item => callback item q) p

/-! ## The script -/

/-- The fixed diagnostic message of line 4. -/
def logMessage : String := "SkillBridge JavaScript loaded"

/-- The selector of line 7. -/
def dropdownItem : Selector := .cls "dropdown-item"

/-- Lines 8-10, `function () { }`: the click callback does nothing. -/
def clickCallback (p : Page) : Page := p

/-- Lines 7-11, the arrow function given to `forEach`:
`(item) => { item.addEventListener("click", function () { }) }`. -/
def forEachCallback (item : Nat) (p : Page) : Page :=
  let (f, p1) := newFunction .dropdownClick p
  elementAddEventListener item "click" f p1

/-- Lines 2-12, the `DOMContentLoaded` listener. -/
def domContentLoadedHandler (p : Page) : Page :=
  let p1 := consoleLog logMessage p
  let (items, p2) := querySelectorAll dropdownItem p1
  forEach items forEachCallback p2

/-- The top level of main.js: `document.addEventListener("DOMContentLoaded", ...)`. -/
def mainJs (p : Page) : Page :=
  let (f, p1) := newFunction .bootstrap p
  documentAddEventListener "DOMContentLoaded" f p1

/-! ## Event dispatch -/

/-- Calling a function object. -/
def callFunction (f : Fn) (p : Page) : Page :=
  let p1 := { p with trace := p.trace ++ [.invoke f] }
  match f.body with
  | .bootstrap => domContentLoadedHandler p1
  | .dropdownClick => clickCallback p1

/-- Running the listeners of one event target for an event of type `type`. -/
def invokeListeners (type : String) (ls : List Listener) (p : Page) : Page :=
  ls.foldl (fun q l => if l.type = type then callFunction l.callback q else q) p

/-- The event listener list of the element `nid`. -/
def Page.listenersOf (p : Page) (nid : Nat) : List Listener :=
  match p.elements.find? (fun e => decide (e.nid = nid)) with
  | some e => e.listeners
  | none => []

/-- The ancestors, nearest first, of an element of depth `d`, read off the
elements before it (nearest first). -/
def ancestorsIn : List Element → Nat → List Nat
  | [], _ => []
  | e :: es, d =>
    if e.depth < d then e.nid :: ancestorsIn es e.depth else ancestorsIn es d

/-- The propagation path of an event whose target is `target`: the target, then
its ancestors, nearest first. -/
def eventPath (els : List Element) (target : Nat) : List Nat :=
  match els.find? (fun e => decide (e.nid = target)) with
  | none => []
  | some e =>
    target ::
      ancestorsIn (els.takeWhile (fun a => !decide (a.nid = target))).reverse e.depth

/-- A click at `target`: the click listeners along the path, then those of
the document. -/
def dispatchClick (target : Nat) (p : Page) : Page :=
  let p1 := (eventPath p.elements target).foldl
    (fun q n => invokeListeners "click" (q.listenersOf n) q) p
  invokeListeners "click" p1.docListeners p1

/-- The `DOMContentLoaded` event, fired at the document. -/
def dispatchDOMContentLoaded (p : Page) : Page :=
  invokeListeners "DOMContentLoaded" p.docListeners p

/-! ## The page as a transition system -/

/-- What can happen to the page once the script is loaded. -/
inductive Event where
  /-- The host fires `DOMContentLoaded`. -/
  | domContentLoaded
  /-- A click on the element `target`. -/
  | click (target : Nat)
  /-- A new element (no listeners yet) enters the document at position `pos`. -/
  | insert (pos depth : Nat) (classes : List String)
  /-- The class list of the element `target` is replaced. -/
  | setClasses (target : Nat) (classes : List String)
deriving DecidableEq, Repr

/-- A new element enters the document. -/
def insertElement (pos depth : Nat) (classes : List String) (p : Page) : Page :=
  { p with
    elements := p.elements.take pos ++
      ⟨p.nextNode, depth, classes, []⟩ :: p.elements.drop pos
    nextNode := p.nextNode + 1 }

/-- The class list of an element is replaced. -/
def setElementClasses (target : Nat) (classes : List String) (p : Page) : Page :=
  { p with
    elements := p.elements.map fun e =>
      if e.nid = target then { e with classes := classes } else e }

/-- One event. -/
def step : Event → Page → Page
  | .domContentLoaded, p => dispatchDOMContentLoaded p
  | .click target, p => dispatchClick target p
  | .insert pos depth classes, p => insertElement pos depth classes p
  | .setClasses target classes, p => setElementClasses target classes p

/-- A sequence of events, oldest first. -/
def run (evs : List Event) (p : Page) : Page :=
  evs.foldl (fun q ev => step ev q) p

/-- The page when its load starts: nothing parsed, nothing logged. -/
def Page.initial : Page := ⟨[], [], [], 0, 0, []⟩

/-- The state of a page that loads main.js and then sees the events `evs`. -/
def pageAfter (evs : List Event) : Page := run evs (mainJs Page.initial)

/-! ## Observations on the trace -/

/-- The effects that happened between the states `p` and `q`. -/
def effectsSince (p q : Page) : List Effect := q.trace.drop p.trace.length

/-- Is the effect the attachment of a click listener to an element? -/
def Effect.isClickAttach : Effect → Bool
  | .addListener (.element _) l => decide (l.type = "click")
  | _ => false

/-- The element an attachment effect is made on. -/
def Effect.attachTarget : Effect → Option Nat
  | .addListener (.element t) _ => some t
  | _ => none

/-- The invocations of the callbacks of a list of listeners, in order. -/
def invokesOf (ls : List Listener) : List Effect := ls.map fun l => Effect.invoke l.callback

/-! ## Well-formedness and invariants of a page -/

/-- No two elements of the document share an identity. -/
def Page.NodeUnique (p : Page) : Prop := (p.elements.map (·.nid)).Nodup

/-- Every function object held by an element listener was allocated before. -/
def Page.FnFresh (p : Page) : Prop :=
  ∀ e ∈ p.elements, ∀ l ∈ e.listeners, l.callback.id < p.nextFn

instance (p : Page) : Decidable p.NodeUnique := by
  unfold Page.NodeUnique; infer_instance

instance (p : Page) : Decidable p.FnFresh := by
  unfold Page.FnFresh; infer_instance

/-- The identities of the function objects held by element listeners. -/
def fnIds (es : List Element) : List Nat :=
  es.flatMap fun e => e.listeners.map (·.callback.id)

/-- The listener of the document that main.js registers on a page just loaded. -/
def bootstrapListener : Listener := ⟨"DOMContentLoaded", ⟨0, .bootstrap⟩⟩

/-- What holds of every state of a page whose only script is main.js. -/
structure Page.Inv (p : Page) : Prop where
  nodeUnique : p.NodeUnique
  nodeFresh : ∀ e ∈ p.elements, e.nid < p.nextNode
  fnFresh : p.FnFresh
  ownListeners : ∀ e ∈ p.elements, ∀ l ∈ e.listeners,
    l.type = "click" ∧ l.callback.body = .dropdownClick
  fnUnique : (fnIds p.elements).Nodup
  document : p.docListeners = [bootstrapListener]

/-- The function objects held by the listeners of the element `n`. -/
def Page.callbackIds (p : Page) (n : Nat) : List Nat :=
  (p.listenersOf n).map (·.callback.id)

/-! ## Closed forms used in the proofs -/

/-- The click listener whose callback is the function object `n`. -/
def clickListener (n : Nat) : Listener := ⟨"click", ⟨n, .dropdownClick⟩⟩

/-- The number of elements matching `.dropdown-item` among the first `i`. -/
def rankOf (els : List Element) (i : Nat) : Nat :=
  ((els.take i).filter dropdownItem.selects).length

/-- The elements after the attachments, when the function objects are new and
the identities unique: each matching element gets one more listener. -/
def attachFrom : Nat → List Element → List Element
  | _, [] => []
  | n, e :: es =>
    if dropdownItem.selects e then
      { e with listeners := e.listeners ++ [clickListener n] } :: attachFrom (n + 1) es
    else e :: attachFrom n es

/-- What an element looks like apart from its listeners. -/
def Element.shape (e : Element) : Nat × Nat × List String := (e.nid, e.depth, e.classes)

/-- The changes a run may make to an element: only its listener list grows, by
click listeners, and only when the element is one of the items. -/
def FrameOf (items : List Nat) (g : Element → Element) : Prop :=
  ∀ e : Element, (g e).shape = e.shape ∧ (e.nid ∉ items → g e = e) ∧
    e.listeners <+: (g e).listeners ∧
    (g e).listeners.filter (fun l => decide (l.type ≠ "click")) =
      e.listeners.filter (fun l => decide (l.type ≠ "click"))

/-! ## Sample pages and event sequences -/

/-- A page with two dropdown items, one of which already carries a listener. -/
def samplePage : Page :=
  { elements :=
      [⟨0, 0, ["nav"], []⟩,
       ⟨1, 1, ["dropdown-item"], []⟩,
       ⟨2, 1, ["dropdown-item", "active"], [⟨"click", ⟨0, .dropdownClick⟩⟩]⟩,
       ⟨3, 0, ["footer"], []⟩]
    docListeners := [⟨"DOMContentLoaded", ⟨1, .bootstrap⟩⟩]
    console := []
    nextFn := 2
    nextNode := 4
    trace := [] }

/-- A page without any dropdown item. -/
def plainPage : Page :=
  { elements := [⟨0, 0, ["nav"], []⟩, ⟨1, 1, ["nav-link"], []⟩]
    docListeners := [⟨"DOMContentLoaded", ⟨0, .bootstrap⟩⟩]
    console := []
    nextFn := 1
    nextNode := 2
    trace := [.addListener .document ⟨"DOMContentLoaded", ⟨0, .bootstrap⟩⟩] }

/-- Events before the bootstrap: a menu with one dropdown item is parsed. -/
def sampleBefore : List Event :=
  [Event.insert 0 0 ["dropdown-menu"], Event.insert 1 1 ["dropdown-item"]]

/-- Events after the bootstrap: a second dropdown item is added, both items are
clicked, and the menu gets another class. -/
def sampleLater : List Event :=
  [Event.insert 2 1 ["dropdown-item"], Event.click 2, Event.click 1,
   Event.setClasses 0 ["dropdown-menu", "show"]]

/-! ## One run of the handler: everything but the elements -/

theorem forEach_fold_fields (items : List Nat) (p : Page) :
    (items.foldl (fun q item => forEachCallback item q) p).docListeners = p.docListeners ∧
    (items.foldl (fun q item => forEachCallback item q) p).console = p.console ∧
    (items.foldl (fun q item => forEachCallback item q) p).nextNode = p.nextNode ∧
    (items.foldl (fun q item => forEachCallback item q) p).nextFn = p.nextFn + items.length ∧
    (items.foldl (fun q item => forEachCallback item q) p).trace =
      p.trace ++ List.zipWith
        (fun t n => Effect.addListener (.element t) (clickListener n))
        items (List.range' p.nextFn items.length) := by
  induction items generalizing p with
  | nil => simp
  | cons t ts ih =>
    obtain ⟨h1, h2, h3, h4, h5⟩ := ih (forEachCallback t p)
    simp only [List.foldl_cons, h1, h2, h3, h4, h5]
    simp [forEachCallback, newFunction, elementAddEventListener, clickListener,
      List.range'_succ]
    omega

/-! ## One run of the handler: the elements -/

theorem map_attach_other (t : Nat) (l : Listener) (es : List Element)
    (h : ∀ e ∈ es, e.nid ≠ t) :
    es.map (fun e =>
      if e.nid = t then { e with listeners := addListenerTo e.listeners l } else e) = es := by
  induction es with
  | nil => rfl
  | cons e es ih =>
    have h1 : e.nid ≠ t := h e (List.mem_cons_self _ _)
    have h2 : ∀ a ∈ es, a.nid ≠ t := fun a ha => h a (List.mem_cons_of_mem _ ha)
    simp [h1, ih h2]

theorem addListenerTo_new (ls : List Listener) (l : Listener) (h : l ∉ ls) :
    addListenerTo ls l = ls ++ [l] := by
  simp [addListenerTo, h]

theorem forEach_fold_elements (es : List Element) :
    ∀ (pre : List Element) (dl : List Listener) (con : List String) (n nn : Nat)
      (tr : List Effect),
      ((pre ++ es).map (·.nid)).Nodup →
      (∀ e ∈ es, ∀ l ∈ e.listeners, l.callback.id < n) →
      (((es.filter dropdownItem.selects).map (·.nid)).foldl
        (fun q item => forEachCallback item q) ⟨pre ++ es, dl, con, n, nn, tr⟩).elements
        = pre ++ attachFrom n es := by
  induction es with
  | nil => intro pre dl con n nn tr _ _; simp [attachFrom]
  | cons e es ih =>
    intro pre dl con n nn tr hnd hfr
    have hfr' : ∀ a ∈ es, ∀ l ∈ a.listeners, l.callback.id < n + 1 := fun a ha l hl =>
      Nat.lt_succ_of_lt (hfr a (List.mem_cons_of_mem _ ha) l hl)
    have hfr0 : ∀ a ∈ es, ∀ l ∈ a.listeners, l.callback.id < n := fun a ha l hl =>
      hfr a (List.mem_cons_of_mem _ ha) l hl
    by_cases hsel : dropdownItem.selects e = true
    · -- the head matches: it is the next item
      have hnew : clickListener n ∉ e.listeners := by
        intro hmem
        have := hfr e (List.mem_cons_self _ _) _ hmem
        simp [clickListener] at this
      have hpre : ∀ a ∈ pre, a.nid ≠ e.nid := by
        intro a ha heq
        rw [List.map_append, List.nodup_append] at hnd
        exact hnd.2.2 (List.mem_map_of_mem _ ha)
          (by rw [heq]; exact List.mem_map_of_mem _ (List.mem_cons_self _ _))
      have hes : ∀ a ∈ es, a.nid ≠ e.nid := by
        intro a ha heq
        rw [List.map_append, List.nodup_append] at hnd
        have h2 := hnd.2.1
        rw [List.map_cons, List.nodup_cons] at h2
        exact h2.1 (by rw [← heq]; exact List.mem_map_of_mem _ ha)
      have hstep : forEachCallback e.nid ⟨pre ++ e :: es, dl, con, n, nn, tr⟩ =
          ⟨(pre ++ [{ e with listeners := e.listeners ++ [clickListener n] }]) ++ es,
            dl, con, n + 1, nn,
            tr ++ [.addListener (.element e.nid) (clickListener n)]⟩ := by
        simp only [forEachCallback, newFunction, elementAddEventListener, List.map_append,
          List.map_cons]
        rw [map_attach_other _ _ pre hpre, map_attach_other _ _ es hes]
        have hadd : addListenerTo e.listeners ⟨"click", ⟨n, .dropdownClick⟩⟩ =
            e.listeners ++ [clickListener n] := addListenerTo_new _ _ hnew
        simp [hadd, clickListener]
      have hnd' : (((pre ++ [{ e with listeners := e.listeners ++ [clickListener n] }])
          ++ es).map Element.nid).Nodup := by
        simpa using hnd
      rw [List.filter_cons_of_pos hsel, List.map_cons, List.foldl_cons, hstep,
        ih _ dl con (n + 1) nn _ hnd' hfr']
      simp [attachFrom, hsel]
    · have hnd' : (((pre ++ [e]) ++ es).map Element.nid).Nodup := by simpa using hnd
      have := ih (pre ++ [e]) dl con n nn tr hnd' hfr0
      rw [List.filter_cons_of_neg hsel]
      simp only [List.append_assoc, List.singleton_append] at this
      rw [this]
      simp [attachFrom, hsel]

theorem handler_elements (p : Page) (hU : p.NodeUnique) (hF : p.FnFresh) :
    (domContentLoadedHandler p).elements = attachFrom p.nextFn p.elements := by
  have := forEach_fold_elements p.elements [] p.docListeners (p.console ++ [logMessage])
    p.nextFn p.nextNode (p.trace ++ [.log logMessage] ++ [.query dropdownItem])
    (by simpa using hU) hF
  simpa [domContentLoadedHandler, forEach, querySelectorAll, consoleLog] using this

theorem handler_fields (p : Page) :
    (domContentLoadedHandler p).docListeners = p.docListeners ∧
    (domContentLoadedHandler p).console = p.console ++ [logMessage] ∧
    (domContentLoadedHandler p).nextNode = p.nextNode ∧
    (domContentLoadedHandler p).nextFn =
      p.nextFn + (p.elements.filter dropdownItem.selects).length ∧
    (domContentLoadedHandler p).trace =
      p.trace ++ Effect.log logMessage :: Effect.query dropdownItem ::
        List.zipWith (fun t n => Effect.addListener (.element t) (clickListener n))
          ((p.elements.filter dropdownItem.selects).map (·.nid))
          (List.range' p.nextFn (p.elements.filter dropdownItem.selects).length) := by
  have := forEach_fold_fields ((p.elements.filter dropdownItem.selects).map (·.nid))
    (querySelectorAll dropdownItem (consoleLog logMessage p)).2
  simpa [domContentLoadedHandler, forEach, querySelectorAll, consoleLog] using this

theorem attachFrom_getElem? (es : List Element) :
    ∀ (n i : Nat), (attachFrom n es)[i]? = (es[i]?).map fun e =>
      if dropdownItem.selects e then
        { e with listeners := e.listeners ++ [clickListener (n + rankOf es i)] }
      else e := by
  induction es with
  | nil => intro n i; simp [attachFrom]
  | cons e es ih =>
    intro n i
    by_cases hsel : dropdownItem.selects e = true
    · cases i with
      | zero => simp [attachFrom, hsel, rankOf]
      | succ i =>
        simp only [attachFrom, hsel, if_true, List.getElem?_cons_succ, ih]
        have : n + 1 + rankOf es i = n + rankOf (e :: es) (i + 1) := by
          simp [rankOf, hsel]; omega
        rw [this]
    · cases i with
      | zero => simp [attachFrom, hsel, rankOf]
      | succ i =>
        have : rankOf (e :: es) (i + 1) = rankOf es i := by
          simp [rankOf, hsel]
        rw [this]
        simp [attachFrom, hsel, ih]

theorem attachFrom_length (es : List Element) :
    ∀ n : Nat, (attachFrom n es).length = es.length := by
  induction es with
  | nil => intro n; rfl
  | cons e es ih =>
    intro n
    by_cases hsel : dropdownItem.selects e = true <;> simp [attachFrom, hsel, ih]

theorem effectsSince_handler (p : Page) :
    effectsSince p (domContentLoadedHandler p) =
      Effect.log logMessage :: Effect.query dropdownItem ::
        List.zipWith (fun t n => Effect.addListener (.element t) (clickListener n))
          ((p.elements.filter dropdownItem.selects).map (·.nid))
          (List.range' p.nextFn (p.elements.filter dropdownItem.selects).length) := by
  rw [effectsSince, (handler_fields p).2.2.2.2, List.drop_left]

theorem countP_attach_zipWith (ts ns : List Nat) :
    (List.zipWith (fun t n => Effect.addListener (.element t) (clickListener n))
      ts ns).countP Effect.isClickAttach = min ts.length ns.length := by
  induction ts generalizing ns with
  | nil => simp
  | cons t ts ih =>
    cases ns with
    | nil => simp
    | cons n ns =>
      rw [List.zipWith_cons_cons, List.countP_cons, ih]
      simp [Effect.isClickAttach, clickListener, Nat.succ_min_succ]

/-! ## Claims about one run of the handler -/

/-- C1: one run of the handler on a page with N elements matching `.dropdown-item`
makes N click-listener attachments, N being the length of the query result and
the number of matching elements; every matching element gains exactly one click
listener (a new function object with the empty body), every other element keeps
its listener list, and no element is added or removed. -/
theorem handler_attaches_one_listener_per_match (p : Page)
    (hU : p.NodeUnique) (hF : p.FnFresh) :
    (effectsSince p (domContentLoadedHandler p)).countP Effect.isClickAttach
      = (querySelectorAll dropdownItem p).1.length ∧
    (querySelectorAll dropdownItem p).1.length = p.elements.countP dropdownItem.selects ∧
    (domContentLoadedHandler p).elements.length = p.elements.length ∧
    (∀ (i : Nat) (e : Element), p.elements[i]? = some e → dropdownItem.selects e = true →
      (domContentLoadedHandler p).elements[i]? =
        some { e with listeners :=
          e.listeners ++ [⟨"click", ⟨p.nextFn + rankOf p.elements i, .dropdownClick⟩⟩] }) ∧
    (∀ (i : Nat) (e : Element), p.elements[i]? = some e → dropdownItem.selects e = false →
      (domContentLoadedHandler p).elements[i]? = some e) := by
  refine ⟨?_, ?_, ?_, ?_, ?_⟩
  · rw [effectsSince_handler]
    simp [List.countP_cons, Effect.isClickAttach, countP_attach_zipWith, querySelectorAll]
  · simp [querySelectorAll, List.countP_eq_length_filter]
  · rw [handler_elements p hU hF, attachFrom_length]
  · intro i e hi hsel
    rw [handler_elements p hU hF, attachFrom_getElem?, hi]
    simp [hsel, clickListener]
  · intro i e hi hsel
    rw [handler_elements p hU hF, attachFrom_getElem?, hi]
    simp [hsel]

theorem handler_attaches_one_listener_per_match_witness :
    samplePage.NodeUnique ∧ samplePage.FnFresh ∧
    (effectsSince samplePage (domContentLoadedHandler samplePage)).countP
      Effect.isClickAttach = 2 ∧
    (domContentLoadedHandler samplePage).elements[2]? =
      some ⟨2, 1, ["dropdown-item", "active"],
        [⟨"click", ⟨0, .dropdownClick⟩⟩, ⟨"click", ⟨3, .dropdownClick⟩⟩]⟩ :=
  ⟨by decide, by decide,
   ((handler_attaches_one_listener_per_match samplePage (by decide) (by decide)).1).trans
     (by decide),
   ((handler_attaches_one_listener_per_match samplePage (by decide) (by decide)).2.2.2.1
     2 _ rfl (by decide)).trans (by decide)⟩

/-- C2: on a document with no element of class `dropdown-item`, one run of the
handler attaches no click listener (its only effects are the log line and the
query), leaves every element as it was, and appends exactly one line, the fixed
message, to the console. -/
theorem handler_without_match (p : Page)
    (h : ∀ e ∈ p.elements, "dropdown-item" ∉ e.classes) :
    (effectsSince p (domContentLoadedHandler p)).countP Effect.isClickAttach = 0 ∧
    effectsSince p (domContentLoadedHandler p) =
      [Effect.log logMessage, Effect.query dropdownItem] ∧
    (domContentLoadedHandler p).elements = p.elements ∧
    (domContentLoadedHandler p).console = p.console ++ [logMessage] ∧
    (domContentLoadedHandler p).console.length = p.console.length + 1 := by
  have hnone : p.elements.filter dropdownItem.selects = [] := by
    rw [List.filter_eq_nil_iff]
    intro e he
    simpa [dropdownItem, Selector.selects] using h e he
  have heff : effectsSince p (domContentLoadedHandler p) =
      [Effect.log logMessage, Effect.query dropdownItem] := by
    rw [effectsSince_handler, hnone]; rfl
  refine ⟨?_, heff, ?_, (handler_fields p).2.1, ?_⟩
  · rw [heff]; rfl
  · simp [domContentLoadedHandler, forEach, querySelectorAll, consoleLog, hnone]
  · rw [(handler_fields p).2.1]; simp

theorem handler_without_match_witness :
    (∀ e ∈ plainPage.elements, "dropdown-item" ∉ e.classes) ∧
    (effectsSince plainPage (domContentLoadedHandler plainPage)).countP
      Effect.isClickAttach = 0 ∧
    (domContentLoadedHandler plainPage).console = ["SkillBridge JavaScript loaded"] :=
  ⟨by decide,
   (handler_without_match plainPage (by decide)).1,
   (handler_without_match plainPage (by decide)).2.2.2.1⟩

theorem filterMap_attachTarget_zipWith (ts ns : List Nat) (h : ts.length ≤ ns.length) :
    (List.zipWith (fun t n => Effect.addListener (.element t) (clickListener n))
      ts ns).filterMap Effect.attachTarget = ts := by
  induction ts generalizing ns with
  | nil => simp
  | cons t ts ih =>
    cases ns with
    | nil => simp at h
    | cons n ns =>
      rw [List.zipWith_cons_cons, List.filterMap_cons]
      simp only [Effect.attachTarget]
      rw [ih ns (by simpa using h)]

/-- C7: the effects of one run of the handler are, in this order, the log line,
the selector query, and then one click-listener attachment per matching element,
in the document order of the matching elements, each with the next new function
object. -/
theorem handler_effect_order (p : Page) :
    effectsSince p (domContentLoadedHandler p) =
      Effect.log logMessage :: Effect.query dropdownItem ::
        List.zipWith
          (fun t n => Effect.addListener (.element t) ⟨"click", ⟨n, .dropdownClick⟩⟩)
          ((p.elements.filter dropdownItem.selects).map (·.nid))
          (List.range' p.nextFn (p.elements.filter dropdownItem.selects).length) ∧
    (effectsSince p (domContentLoadedHandler p)).head? = some (Effect.log logMessage) ∧
    ((effectsSince p (domContentLoadedHandler p)).drop 2).length =
      p.elements.countP dropdownItem.selects ∧
    ((effectsSince p (domContentLoadedHandler p)).drop 2).filterMap Effect.attachTarget =
      (p.elements.filter dropdownItem.selects).map (·.nid) ∧
    (∀ ef ∈ (effectsSince p (domContentLoadedHandler p)).drop 2,
      Effect.isClickAttach ef = true) := by
  have heff := effectsSince_handler p
  refine ⟨heff, ?_, ?_, ?_, ?_⟩
  · rw [heff]; rfl
  · rw [heff]; simp [List.countP_eq_length_filter]
  · rw [heff]
    simp only [List.drop_succ_cons, List.drop_zero]
    exact filterMap_attachTarget_zipWith _ _ (by simp)
  · rw [heff]
    simp only [List.drop_succ_cons, List.drop_zero]
    have hc := countP_attach_zipWith
      ((p.elements.filter dropdownItem.selects).map (·.nid))
      (List.range' p.nextFn (p.elements.filter dropdownItem.selects).length)
    have hl : (List.zipWith
        (fun t n => Effect.addListener (.element t) (clickListener n))
        ((p.elements.filter dropdownItem.selects).map (·.nid))
        (List.range' p.nextFn (p.elements.filter dropdownItem.selects).length)).length =
        min ((p.elements.filter dropdownItem.selects).map (·.nid)).length
          (List.range' p.nextFn (p.elements.filter dropdownItem.selects).length).length := by
      simp
    rw [← hl] at hc
    exact List.countP_eq_length.mp hc

/-! ## The frame of one run -/

theorem addListenerTo_extends (ls : List Listener) (l : Listener) :
    ls <+: addListenerTo ls l := by
  unfold addListenerTo
  split
  · exact List.prefix_refl _
  · exact List.prefix_append _ _

theorem addListenerTo_filter_click (ls : List Listener) (f : Fn) :
    (addListenerTo ls ⟨"click", f⟩).filter (fun l => decide (l.type ≠ "click")) =
      ls.filter (fun l => decide (l.type ≠ "click")) := by
  unfold addListenerTo
  split
  · rfl
  · simp

theorem forEach_fold_frame (items : List Nat) :
    ∀ p : Page, ∃ g : Element → Element, FrameOf items g ∧
      (items.foldl (fun q item => forEachCallback item q) p).elements = p.elements.map g := by
  induction items with
  | nil =>
    intro p
    exact ⟨id, fun e => ⟨rfl, fun _ => rfl, List.prefix_refl _, rfl⟩, by simp⟩
  | cons t ts ih =>
    intro p
    obtain ⟨g2, hg2, heq⟩ := ih (forEachCallback t p)
    let g1 : Element → Element := fun e =>
      if e.nid = t then
        { e with listeners := addListenerTo e.listeners ⟨"click", ⟨p.nextFn, .dropdownClick⟩⟩ }
      else e
    have h1 : (forEachCallback t p).elements = p.elements.map g1 := rfl
    have hg1 : ∀ e, (g1 e).shape = e.shape ∧ (e.nid ≠ t → g1 e = e) ∧
        e.listeners <+: (g1 e).listeners ∧
        (g1 e).listeners.filter (fun l => decide (l.type ≠ "click")) =
          e.listeners.filter (fun l => decide (l.type ≠ "click")) := by
      intro e
      by_cases he : e.nid = t
      · have hv : g1 e = ⟨e.nid, e.depth, e.classes,
            addListenerTo e.listeners ⟨"click", ⟨p.nextFn, .dropdownClick⟩⟩⟩ := if_pos he
        rw [hv]
        exact ⟨rfl, fun hne => absurd he hne, addListenerTo_extends _ _,
          addListenerTo_filter_click _ _⟩
      · have hv : g1 e = e := if_neg he
        rw [hv]
        exact ⟨rfl, fun _ => rfl, List.prefix_refl _, rfl⟩
    refine ⟨g2 ∘ g1, ?_, ?_⟩
    · intro e
      obtain ⟨a1, a2, a3, a4⟩ := hg1 e
      obtain ⟨b1, b2, b3, b4⟩ := hg2 (g1 e)
      refine ⟨by simp only [Function.comp, b1, a1], ?_, ?_, ?_⟩
      · intro hn
        have hne : e.nid ≠ t := fun h => hn (h ▸ List.mem_cons_self _ _)
        have hnt : e.nid ∉ ts := fun h => hn (List.mem_cons_of_mem _ h)
        have e1 : g1 e = e := a2 hne
        simp only [Function.comp, e1]
        exact (hg2 e).2.1 hnt
      · exact List.IsPrefix.trans a3 b3
      · simp only [Function.comp, b4, a4]
    · rw [List.foldl_cons, heq, h1, List.map_map]

theorem handler_frame_lemma (p : Page) :
    ∃ g : Element → Element,
      FrameOf ((p.elements.filter dropdownItem.selects).map (·.nid)) g ∧
      (domContentLoadedHandler p).elements = p.elements.map g := by
  obtain ⟨g, hg, heq⟩ := forEach_fold_frame
    ((p.elements.filter dropdownItem.selects).map (·.nid))
    (querySelectorAll dropdownItem (consoleLog logMessage p)).2
  exact ⟨g, hg, by simpa [domContentLoadedHandler, forEach, querySelectorAll, consoleLog] using heq⟩

/-- C6: one run of the handler keeps the elements, their order, identities, depths
and classes, the listener list of the document and the element allocator; an
element that does not carry `dropdown-item` keeps its listener list; on any
element the old listeners stay, in order, at the front of the list, and the
listeners of every type other than click are the same as before. -/
theorem handler_changes_only_matching_listeners (p : Page) (hU : p.NodeUnique) :
    (domContentLoadedHandler p).elements.map Element.shape =
      p.elements.map Element.shape ∧
    (domContentLoadedHandler p).docListeners = p.docListeners ∧
    (domContentLoadedHandler p).nextNode = p.nextNode ∧
    (∀ (i : Nat) (e : Element), p.elements[i]? = some e → dropdownItem.selects e = false →
      (domContentLoadedHandler p).elements[i]? = some e) ∧
    (∀ (i : Nat) (e e' : Element), p.elements[i]? = some e →
      (domContentLoadedHandler p).elements[i]? = some e' →
      e.listeners <+: e'.listeners ∧
      e'.listeners.filter (fun l => decide (l.type ≠ "click")) =
        e.listeners.filter (fun l => decide (l.type ≠ "click"))) := by
  obtain ⟨g, hg, heq⟩ := handler_frame_lemma p
  refine ⟨?_, (handler_fields p).1, (handler_fields p).2.2.1, ?_, ?_⟩
  · rw [heq, List.map_map]
    exact List.map_congr_left fun e _ => (hg e).1
  · intro i e hi hsel
    have hmem : e ∈ p.elements := List.getElem?_mem hi
    have hnot : e.nid ∉ (p.elements.filter dropdownItem.selects).map (·.nid) := by
      intro hin
      obtain ⟨e', he', hnid⟩ := List.mem_map.mp hin
      have hmem' : e' ∈ p.elements := (List.mem_filter.mp he').1
      have : e' = e := List.inj_on_of_nodup_map hU hmem' hmem hnid
      rw [this] at he'
      rw [(List.mem_filter.mp he').2] at hsel
      exact Bool.noConfusion hsel
    rw [heq, List.getElem?_map, hi, Option.map_some', (hg e).2.1 hnot]
  · intro i e e' hi hi'
    rw [heq, List.getElem?_map, hi, Option.map_some'] at hi'
    cases hi'
    exact ⟨(hg e).2.2.1, (hg e).2.2.2⟩

theorem handler_changes_only_matching_listeners_witness :
    samplePage.NodeUnique ∧
    (domContentLoadedHandler samplePage).elements.map Element.shape =
      [(0, 0, ["nav"]), (1, 1, ["dropdown-item"]), (2, 1, ["dropdown-item", "active"]),
       (3, 0, ["footer"])] ∧
    (domContentLoadedHandler samplePage).elements[3]? = some ⟨3, 0, ["footer"], []⟩ :=
  ⟨by decide,
   (handler_changes_only_matching_listeners samplePage (by decide)).1,
   (handler_changes_only_matching_listeners samplePage (by decide)).2.2.2.1 3 _ rfl
     (by decide)⟩

/-! ## The handler keeps the invariant -/

theorem attachFrom_listener_mem (es : List Element) :
    ∀ (n : Nat) (e' : Element) (l : Listener), e' ∈ attachFrom n es → l ∈ e'.listeners →
      (∃ e ∈ es, l ∈ e.listeners) ∨
      ∃ m, n ≤ m ∧ m < n + es.countP dropdownItem.selects ∧ l = clickListener m := by
  induction es with
  | nil => intro n e' l h; simp [attachFrom] at h
  | cons e es ih =>
    intro n e' l he' hl
    by_cases hsel : dropdownItem.selects e = true
    · rw [attachFrom, if_pos hsel, List.mem_cons] at he'
      rcases he' with rfl | he'
      · simp only [List.mem_append, List.mem_singleton] at hl
        rcases hl with hl | rfl
        · exact Or.inl ⟨e, List.mem_cons_self _ _, hl⟩
        · exact Or.inr ⟨n, le_refl _, by simp [hsel], rfl⟩
      · rcases ih (n + 1) e' l he' hl with ⟨a, ha, hla⟩ | ⟨m, h1, h2, h3⟩
        · exact Or.inl ⟨a, List.mem_cons_of_mem _ ha, hla⟩
        · exact Or.inr ⟨m, by omega, by simp [hsel]; omega, h3⟩
    · rw [attachFrom, if_neg hsel, List.mem_cons] at he'
      rcases he' with rfl | he'
      · exact Or.inl ⟨e', List.mem_cons_self _ _, hl⟩
      · rcases ih n e' l he' hl with ⟨a, ha, hla⟩ | ⟨m, h1, h2, h3⟩
        · exact Or.inl ⟨a, List.mem_cons_of_mem _ ha, hla⟩
        · exact Or.inr ⟨m, h1, by simp [hsel]; omega, h3⟩

theorem mem_fnIds {es : List Element} {x : Nat} :
    x ∈ fnIds es ↔ ∃ e ∈ es, ∃ l ∈ e.listeners, l.callback.id = x := by
  simp [fnIds, List.mem_flatMap]

theorem attachFrom_fnIds_mem (es : List Element) (n x : Nat)
    (h : x ∈ fnIds (attachFrom n es)) : x ∈ fnIds es ∨ n ≤ x := by
  obtain ⟨e', he', l, hl, rfl⟩ := mem_fnIds.mp h
  rcases attachFrom_listener_mem es n e' l he' hl with ⟨e, he, hle⟩ | ⟨m, h1, _, rfl⟩
  · exact Or.inl (mem_fnIds.mpr ⟨e, he, l, hle, rfl⟩)
  · exact Or.inr h1

theorem attachFrom_fnIds_nodup (es : List Element) :
    ∀ n : Nat, (∀ x ∈ fnIds es, x < n) → (fnIds es).Nodup →
      (fnIds (attachFrom n es)).Nodup := by
  induction es with
  | nil => intro n _ _; simp [attachFrom, fnIds]
  | cons e es ih =>
    intro n hlt hnd
    have hsplit : fnIds (e :: es) = e.listeners.map (·.callback.id) ++ fnIds es := by
      simp [fnIds]
    rw [hsplit, List.nodup_append] at hnd
    obtain ⟨hnd1, hnd2, hdisj⟩ := hnd
    have hlt1 : ∀ x ∈ e.listeners.map (·.callback.id), x < n := fun x hx =>
      hlt x (by rw [hsplit]; exact List.mem_append_left _ hx)
    have hlt2 : ∀ x ∈ fnIds es, x < n := fun x hx =>
      hlt x (by rw [hsplit]; exact List.mem_append_right _ hx)
    by_cases hsel : dropdownItem.selects e = true
    · have hrec := ih (n + 1) (fun x hx => Nat.lt_succ_of_lt (hlt2 x hx)) hnd2
      have hform : fnIds (attachFrom n (e :: es)) =
          (e.listeners.map (·.callback.id) ++ [n]) ++ fnIds (attachFrom (n + 1) es) := by
        simp [attachFrom, hsel, fnIds, clickListener]
      rw [hform, List.nodup_append]
      refine ⟨?_, hrec, ?_⟩
      · rw [List.nodup_append]
        refine ⟨hnd1, List.nodup_singleton _, ?_⟩
        intro x hx hx'
        have := hlt1 x hx
        simp only [List.mem_singleton] at hx'
        omega
      · intro x hx hx'
        rcases attachFrom_fnIds_mem es (n + 1) x hx' with h | h
        · rcases List.mem_append.mp hx with h1 | h1
          · exact hdisj h1 h
          · simp only [List.mem_singleton] at h1
            have := hlt2 x h
            omega
        · rcases List.mem_append.mp hx with h1 | h1
          · have := hlt1 x h1
            omega
          · simp only [List.mem_singleton] at h1
            omega
    · have hrec := ih n hlt2 hnd2
      have hform : fnIds (attachFrom n (e :: es)) =
          e.listeners.map (·.callback.id) ++ fnIds (attachFrom n es) := by
        simp [attachFrom, hsel, fnIds]
      rw [hform, List.nodup_append]
      refine ⟨hnd1, hrec, ?_⟩
      intro x hx hx'
      rcases attachFrom_fnIds_mem es n x hx' with h | h
      · exact hdisj hx h
      · have := hlt1 x hx
        omega

theorem handler_shape (p : Page) :
    (domContentLoadedHandler p).elements.map Element.shape =
      p.elements.map Element.shape := by
  obtain ⟨g, hg, heq⟩ := handler_frame_lemma p
  rw [heq, List.map_map]
  exact List.map_congr_left fun e _ => (hg e).1

theorem map_nid_of_shape {es es' : List Element}
    (h : es.map Element.shape = es'.map Element.shape) :
    es.map (·.nid) = es'.map (·.nid) := by
  have := congrArg (List.map Prod.fst) h
  simpa [List.map_map, Function.comp_def, Element.shape] using this

theorem handler_inv (p : Page) (h : p.Inv) : (domContentLoadedHandler p).Inv := by
  have hel := handler_elements p h.nodeUnique h.fnFresh
  have hf := handler_fields p
  have hnid := map_nid_of_shape (handler_shape p)
  have hmem : ∀ e' ∈ (domContentLoadedHandler p).elements, ∀ l ∈ e'.listeners,
      (∃ e ∈ p.elements, l ∈ e.listeners) ∨
      ∃ m, p.nextFn ≤ m ∧ m < p.nextFn + p.elements.countP dropdownItem.selects ∧
        l = clickListener m := by
    intro e' he' l hl
    rw [hel] at he'
    exact attachFrom_listener_mem _ _ e' l he' hl
  refine ⟨?_, ?_, ?_, ?_, ?_, ?_⟩
  · unfold Page.NodeUnique
    rw [hnid]
    exact h.nodeUnique
  · intro e he
    have : e.nid ∈ (domContentLoadedHandler p).elements.map (·.nid) :=
      List.mem_map_of_mem _ he
    rw [hnid] at this
    obtain ⟨e0, he0, hn⟩ := List.mem_map.mp this
    rw [hf.2.2.1, ← hn]
    exact h.nodeFresh e0 he0
  · intro e' he' l hl
    rw [hf.2.2.2.1]
    rcases hmem e' he' l hl with ⟨e, he, hle⟩ | ⟨m, _, h2, rfl⟩
    · have := h.fnFresh e he l hle
      omega
    · simpa [clickListener, List.countP_eq_length_filter] using h2
  · intro e' he' l hl
    rcases hmem e' he' l hl with ⟨e, he, hle⟩ | ⟨m, _, _, rfl⟩
    · exact h.ownListeners e he l hle
    · exact ⟨rfl, rfl⟩
  · rw [hel]
    refine attachFrom_fnIds_nodup _ _ ?_ h.fnUnique
    intro x hx
    obtain ⟨e, he, l, hl, rfl⟩ := mem_fnIds.mp hx
    exact h.fnFresh e he l hl
  · rw [hf.1]
    exact h.document

/-! ## Dispatch on a page that satisfies the invariant -/

theorem Page.Inv.congr {p q : Page} (h : p.Inv) (h1 : q.elements = p.elements)
    (h2 : q.docListeners = p.docListeners) (h3 : q.nextFn = p.nextFn)
    (h4 : q.nextNode = p.nextNode) : q.Inv := by
  refine ⟨?_, ?_, ?_, ?_, ?_, ?_⟩
  · unfold Page.NodeUnique; rw [h1]; exact h.nodeUnique
  · rw [h1, h4]; exact h.nodeFresh
  · unfold Page.FnFresh; rw [h1, h3]; exact h.fnFresh
  · rw [h1]; exact h.ownListeners
  · rw [h1]; exact h.fnUnique
  · rw [h2]; exact h.document

theorem invokeListeners_empty_bodies (ty : String) (ls : List Listener) :
    ∀ p : Page, (∀ l ∈ ls, l.callback.body = .dropdownClick) →
      invokeListeners ty ls p =
        { p with trace := p.trace ++
            invokesOf (ls.filter (fun l => decide (l.type = ty))) } := by
  induction ls with
  | nil => intro p _; simp [invokeListeners, invokesOf]
  | cons l ls ih =>
    intro p h
    have hl : l.callback.body = .dropdownClick := h l (List.mem_cons_self _ _)
    have hls : ∀ a ∈ ls, a.callback.body = .dropdownClick := fun a ha =>
      h a (List.mem_cons_of_mem _ ha)
    have hcall : callFunction l.callback p =
        { p with trace := p.trace ++ [Effect.invoke l.callback] } := by
      simp [callFunction, hl, clickCallback]
    by_cases hty : l.type = ty
    · have hstep : invokeListeners ty (l :: ls) p =
          invokeListeners ty ls (callFunction l.callback p) := by
        simp [invokeListeners, hty]
      rw [hstep, hcall, ih _ hls]
      simp [hty, invokesOf]
    · have hstep : invokeListeners ty (l :: ls) p = invokeListeners ty ls p := by
        simp [invokeListeners, hty]
      rw [hstep, ih _ hls]
      simp [hty, invokesOf]

theorem listenersOf_mem {p : Page} {t : Nat} {l : Listener} (h : l ∈ p.listenersOf t) :
    ∃ e ∈ p.elements, e.nid = t ∧ l ∈ e.listeners := by
  unfold Page.listenersOf at h
  split at h
  · next e he =>
    exact ⟨e, List.mem_of_find?_eq_some he, by simpa using List.find?_some he, h⟩
  · simp at h

theorem clickPath_fold (p : Page) (h : p.Inv) (ns : List Nat) :
    ∀ tr : List Effect,
      ns.foldl (fun q n => invokeListeners "click" (q.listenersOf n) q)
        { p with trace := tr } =
      { p with trace := tr ++ invokesOf (ns.flatMap fun n => p.listenersOf n) } := by
  induction ns with
  | nil => intro tr; simp [invokesOf]
  | cons n ns ih =>
    intro tr
    have hown : ∀ l ∈ p.listenersOf n,
        l.type = "click" ∧ l.callback.body = .dropdownClick := by
      intro l hl
      obtain ⟨e, he, _, hle⟩ := listenersOf_mem hl
      exact h.ownListeners e he l hle
    have hfilter : (p.listenersOf n).filter (fun l => decide (l.type = "click")) =
        p.listenersOf n := by
      rw [List.filter_eq_self]
      intro l hl
      simpa using (hown l hl).1
    have hsame : ({ p with trace := tr } : Page).listenersOf n = p.listenersOf n := rfl
    rw [List.foldl_cons, hsame,
      invokeListeners_empty_bodies "click" _ _ (fun l hl => (hown l hl).2), hfilter]
    simp only []
    rw [ih]
    simp [invokesOf]

theorem dispatchClick_eq (p : Page) (h : p.Inv) (t : Nat) :
    dispatchClick t p =
      { p with trace := p.trace ++
          invokesOf ((eventPath p.elements t).flatMap fun n => p.listenersOf n) } := by
  have hfold := clickPath_fold p h (eventPath p.elements t) p.trace
  have hp : ({ p with trace := p.trace } : Page) = p := rfl
  rw [hp] at hfold
  unfold dispatchClick
  simp only []
  rw [hfold]
  simp [h.document, invokeListeners, bootstrapListener]

theorem dispatchDOMContentLoaded_eq (p : Page) (h : p.Inv) :
    dispatchDOMContentLoaded p =
      domContentLoadedHandler
        { p with trace := p.trace ++ [Effect.invoke ⟨0, .bootstrap⟩] } := by
  simp [dispatchDOMContentLoaded, h.document, invokeListeners, bootstrapListener,
    callFunction]

/-! ## Every event keeps the invariant -/

theorem mem_insert_iff (es : List Element) (pos : Nat) (x e : Element) :
    e ∈ es.take pos ++ x :: es.drop pos ↔ e = x ∨ e ∈ es := by
  have hperm : (es.take pos ++ x :: es.drop pos).Perm (x :: es) := by
    have := @List.perm_middle _ x (es.take pos) (es.drop pos)
    rwa [List.take_append_drop] at this
  rw [hperm.mem_iff, List.mem_cons]

theorem fnIds_insert (es : List Element) (pos n d : Nat) (cs : List String) :
    fnIds (es.take pos ++ ⟨n, d, cs, []⟩ :: es.drop pos) = fnIds es := by
  have h : fnIds (es.take pos ++ ⟨n, d, cs, []⟩ :: es.drop pos) =
      fnIds (es.take pos ++ es.drop pos) := by
    simp only [fnIds, List.flatMap_append, List.flatMap_cons, List.map_nil, List.nil_append]
  rw [h, List.take_append_drop]

theorem fnIds_map (g : Element → Element) (hg : ∀ e, (g e).listeners = e.listeners)
    (es : List Element) : fnIds (es.map g) = fnIds es := by
  induction es with
  | nil => rfl
  | cons e es ih =>
    have h1 : fnIds (g e :: es.map g) =
        (g e).listeners.map (·.callback.id) ++ fnIds (es.map g) := by simp [fnIds]
    have h2 : fnIds (e :: es) = e.listeners.map (·.callback.id) ++ fnIds es := by
      simp [fnIds]
    rw [List.map_cons, h1, h2, ih, hg]

theorem insertElement_inv (pos d : Nat) (cs : List String) (p : Page) (h : p.Inv) :
    (insertElement pos d cs p).Inv := by
  refine ⟨?_, ?_, ?_, ?_, ?_, h.document⟩
  · have hperm : ((p.elements.take pos ++ ⟨p.nextNode, d, cs, []⟩ :: p.elements.drop pos).map
        Element.nid).Perm (p.nextNode :: p.elements.map Element.nid) := by
      have := (@List.perm_middle _ (⟨p.nextNode, d, cs, []⟩ : Element)
        (p.elements.take pos) (p.elements.drop pos)).map Element.nid
      rwa [List.take_append_drop] at this
    show ((p.elements.take pos ++ ⟨p.nextNode, d, cs, []⟩ :: p.elements.drop pos).map
        Element.nid).Nodup
    rw [hperm.nodup_iff, List.nodup_cons]
    refine ⟨?_, h.nodeUnique⟩
    intro hin
    obtain ⟨e, he, hn⟩ := List.mem_map.mp hin
    have := h.nodeFresh e he
    omega
  · intro e he
    show e.nid < p.nextNode + 1
    rcases (mem_insert_iff _ _ _ _).mp he with rfl | he
    · exact Nat.lt_succ_self _
    · exact Nat.lt_succ_of_lt (h.nodeFresh e he)
  · intro e he l hl
    rcases (mem_insert_iff _ _ _ _).mp he with rfl | he
    · simp at hl
    · exact h.fnFresh e he l hl
  · intro e he l hl
    rcases (mem_insert_iff _ _ _ _).mp he with rfl | he
    · simp at hl
    · exact h.ownListeners e he l hl
  · show (fnIds (p.elements.take pos ++ ⟨p.nextNode, d, cs, []⟩ :: p.elements.drop pos)).Nodup
    rw [fnIds_insert]
    exact h.fnUnique

theorem setElementClasses_inv (t : Nat) (cs : List String) (p : Page) (h : p.Inv) :
    (setElementClasses t cs p).Inv := by
  have hmem : ∀ e' ∈ (setElementClasses t cs p).elements,
      ∃ e ∈ p.elements, e'.nid = e.nid ∧ e'.listeners = e.listeners := by
    intro e' he'
    obtain ⟨e, he, rfl⟩ := List.mem_map.mp he'
    refine ⟨e, he, ?_⟩
    by_cases hn : e.nid = t <;> simp [hn]
  have hnid : (setElementClasses t cs p).elements.map Element.nid =
      p.elements.map Element.nid := by
    show (p.elements.map _).map Element.nid = _
    rw [List.map_map]
    refine List.map_congr_left fun e _ => ?_
    by_cases hn : e.nid = t <;> simp [hn]
  refine ⟨?_, ?_, ?_, ?_, ?_, h.document⟩
  · unfold Page.NodeUnique
    rw [hnid]
    exact h.nodeUnique
  · intro e' he'
    obtain ⟨e, he, h1, _⟩ := hmem e' he'
    rw [h1]
    exact h.nodeFresh e he
  · intro e' he' l hl
    obtain ⟨e, he, _, h2⟩ := hmem e' he'
    rw [h2] at hl
    exact h.fnFresh e he l hl
  · intro e' he' l hl
    obtain ⟨e, he, _, h2⟩ := hmem e' he'
    rw [h2] at hl
    exact h.ownListeners e he l hl
  · show (fnIds (p.elements.map _)).Nodup
    rw [fnIds_map]
    · exact h.fnUnique
    · intro e
      by_cases hn : e.nid = t <;> simp [hn]

theorem step_inv (ev : Event) (p : Page) (h : p.Inv) : (step ev p).Inv := by
  cases ev with
  | domContentLoaded =>
    show (dispatchDOMContentLoaded p).Inv
    rw [dispatchDOMContentLoaded_eq p h]
    exact handler_inv _ (h.congr rfl rfl rfl rfl)
  | click t =>
    show (dispatchClick t p).Inv
    rw [dispatchClick_eq p h]
    exact h.congr rfl rfl rfl rfl
  | insert pos d cs => exact insertElement_inv pos d cs p h
  | setClasses t cs => exact setElementClasses_inv t cs p h

theorem run_inv (evs : List Event) : ∀ p : Page, p.Inv → (run evs p).Inv := by
  induction evs with
  | nil => intro p h; exact h
  | cons ev evs ih => intro p h; exact ih _ (step_inv ev p h)

theorem mainJs_initial_inv : (mainJs Page.initial).Inv := by
  refine ⟨?_, ?_, ?_, ?_, ?_, ?_⟩
  · exact List.nodup_nil
  · intro e he; cases he
  · intro e he; cases he
  · intro e he; cases he
  · exact List.nodup_nil
  · rfl

theorem run_append (evs1 evs2 : List Event) (p : Page) :
    run (evs1 ++ evs2) p = run evs2 (run evs1 p) := by
  simp [run, List.foldl_append]

/-! ## The console over the life of the page -/

theorem pageAfter_inv (evs : List Event) : (pageAfter evs).Inv :=
  run_inv evs _ mainJs_initial_inv

theorem step_console (ev : Event) (p : Page) (h : p.Inv) :
    (step ev p).console =
      p.console ++ List.replicate ([ev].count Event.domContentLoaded) logMessage := by
  cases ev with
  | domContentLoaded =>
    show (dispatchDOMContentLoaded p).console = _
    rw [dispatchDOMContentLoaded_eq p h, (handler_fields _).2.1]
    rfl
  | click t =>
    show (dispatchClick t p).console = _
    rw [dispatchClick_eq p h]
    simp
  | insert pos d cs => simp [step, insertElement]
  | setClasses t cs => simp [step, setElementClasses]

theorem run_console (evs : List Event) :
    ∀ p : Page, p.Inv →
      (run evs p).console =
        p.console ++ List.replicate (evs.count Event.domContentLoaded) logMessage := by
  induction evs with
  | nil => intro p _; simp [run]
  | cons ev evs ih =>
    intro p h
    have hrun : run (ev :: evs) p = run evs (step ev p) := rfl
    have hcount : (ev :: evs).count Event.domContentLoaded =
        [ev].count Event.domContentLoaded + evs.count Event.domContentLoaded := by
      rw [← List.count_append]; rfl
    rw [hrun, ih _ (step_inv ev p h), step_console ev p h, hcount, List.replicate_add,
      List.append_assoc]

/-- C3: evaluating main.js writes nothing to the console and only registers one
`DOMContentLoaded` listener on the document; after any sequence of events on the
loaded page the console holds exactly one copy of the fixed message per
`DOMContentLoaded` event fired so far, so it is empty before the first such event
and holds at most one line when the event fires at most once. -/
theorem log_once_per_DOMContentLoaded (p : Page) (evs : List Event) :
    (mainJs p).console = p.console ∧
    (mainJs p).elements = p.elements ∧
    effectsSince p (mainJs p) =
      [Effect.addListener .document ⟨"DOMContentLoaded", ⟨p.nextFn, .bootstrap⟩⟩] ∧
    (mainJs Page.initial).console = [] ∧
    (mainJs Page.initial).docListeners = [⟨"DOMContentLoaded", ⟨0, .bootstrap⟩⟩] ∧
    (pageAfter evs).console =
      List.replicate (evs.count Event.domContentLoaded) logMessage ∧
    (pageAfter evs).console.length = evs.count Event.domContentLoaded ∧
    (Event.domContentLoaded ∉ evs → (pageAfter evs).console = []) ∧
    (evs.count Event.domContentLoaded ≤ 1 → (pageAfter evs).console.length ≤ 1) := by
  have hcon : (pageAfter evs).console =
      List.replicate (evs.count Event.domContentLoaded) logMessage := by
    have := run_console evs _ mainJs_initial_inv
    simpa [pageAfter, mainJs, documentAddEventListener, newFunction, Page.initial] using this
  have hlen : (pageAfter evs).console.length = evs.count Event.domContentLoaded := by
    rw [hcon, List.length_replicate]
  refine ⟨rfl, rfl, ?_, rfl, rfl, hcon, hlen, ?_, ?_⟩
  · simp [effectsSince, mainJs, documentAddEventListener, newFunction]
  · intro hno
    rw [hcon, List.count_eq_zero_of_not_mem hno]
    rfl
  · intro hle
    rw [hlen]
    exact hle

/-! ## The propagation path of a click -/

theorem listenersOf_of_mem {p : Page} (hU : p.NodeUnique) {e : Element}
    (he : e ∈ p.elements) : p.listenersOf e.nid = e.listeners := by
  unfold Page.listenersOf
  split
  · next e' he' =>
    have hmem : e' ∈ p.elements := List.mem_of_find?_eq_some he'
    have hn : e'.nid = e.nid := by simpa using List.find?_some he'
    rw [List.inj_on_of_nodup_map hU hmem he hn]
  · next hnone =>
    have := List.find?_eq_none.mp hnone e he
    simp at this

theorem listenersOf_of_not_mem {p : Page} {t : Nat}
    (h : ∀ e ∈ p.elements, e.nid ≠ t) : p.listenersOf t = [] := by
  unfold Page.listenersOf
  split
  · next e' he' =>
    exact absurd (by simpa using List.find?_some he') (h e' (List.mem_of_find?_eq_some he'))
  · rfl

theorem ancestorsIn_sublist (es : List Element) :
    ∀ d : Nat, (ancestorsIn es d).Sublist (es.map (·.nid)) := by
  induction es with
  | nil => intro d; exact List.Sublist.slnil
  | cons e es ih =>
    intro d
    by_cases hd : e.depth < d
    · simp only [ancestorsIn, hd, if_true, List.map_cons]
      exact (ih e.depth).cons₂ _
    · simp only [ancestorsIn, hd, if_false, List.map_cons]
      exact (ih d).cons _

theorem eventPath_nodup (els : List Element) (t : Nat)
    (hU : (els.map (·.nid)).Nodup) : (eventPath els t).Nodup := by
  unfold eventPath
  split
  · exact List.nodup_nil
  · next e _ =>
    have hsub := ancestorsIn_sublist
      (els.takeWhile (fun a => !decide (a.nid = t))).reverse e.depth
    rw [List.nodup_cons]
    constructor
    · intro hin
      have hin' := hsub.subset hin
      obtain ⟨a, ha, hat⟩ := List.mem_map.mp hin'
      have ha' : a ∈ els.takeWhile (fun a => !decide (a.nid = t)) := List.mem_reverse.mp ha
      have := List.mem_takeWhile_imp ha'
      simp [hat] at this
    · refine List.Nodup.sublist hsub ?_
      rw [List.map_reverse, List.nodup_reverse]
      exact List.Nodup.sublist ((List.takeWhile_sublist _).map _) hU

theorem eventPath_head {els : List Element} {e : Element} (he : e ∈ els) :
    e.nid ∈ eventPath els e.nid := by
  unfold eventPath
  split
  · next hnone =>
    have := List.find?_eq_none.mp hnone e he
    simp at this
  · exact List.mem_cons_self _ _

theorem callbackIds_nodup (p : Page) (h : p.Inv) (n : Nat) : (p.callbackIds n).Nodup := by
  unfold Page.callbackIds Page.listenersOf
  split
  · next e he =>
    have hmem : e ∈ p.elements := List.mem_of_find?_eq_some he
    exact ((List.nodup_flatMap.mp h.fnUnique).1 e hmem)
  · exact List.nodup_nil

theorem callbackIds_disjoint (p : Page) (h : p.Inv) (n m : Nat) (hnm : n ≠ m) :
    List.Disjoint (p.callbackIds n) (p.callbackIds m) := by
  intro x hx hx'
  obtain ⟨l, hl, rfl⟩ := List.mem_map.mp hx
  obtain ⟨l', hl', hid⟩ := List.mem_map.mp hx'
  obtain ⟨e, he, hen, hle⟩ := listenersOf_mem hl
  obtain ⟨e', he', hen', hle'⟩ := listenersOf_mem hl'
  have hne : e ≠ e' := by
    intro heq
    rw [heq] at hen
    exact hnm (hen.symm.trans hen')
  have hpair := (List.nodup_flatMap.mp h.fnUnique).2
  have hsymm : Symmetric (Function.onFun List.Disjoint
      (fun e : Element => e.listeners.map (·.callback.id))) :=
    fun a b hab => List.Disjoint.symm hab
  have hdis := hpair.forall hsymm he he' hne
  exact hdis (List.mem_map_of_mem _ hle) (by rw [← hid]; exact List.mem_map_of_mem _ hle')

theorem path_callbackIds_nodup (p : Page) (h : p.Inv) (ns : List Nat) (hns : ns.Nodup) :
    (ns.flatMap fun n => p.callbackIds n).Nodup := by
  rw [List.nodup_flatMap]
  refine ⟨fun n _ => callbackIds_nodup p h n, ?_⟩
  exact List.Pairwise.imp (fun {a b} hab => callbackIds_disjoint p h a b hab) hns

theorem click_count (p : Page) (h : p.Inv) (e : Element) (he : e ∈ p.elements)
    (l : Listener) (hl : l ∈ e.listeners) :
    (effectsSince p (dispatchClick e.nid p)).count (Effect.invoke l.callback) = 1 := by
  have heff : effectsSince p (dispatchClick e.nid p) =
      invokesOf ((eventPath p.elements e.nid).flatMap fun n => p.listenersOf n) := by
    rw [dispatchClick_eq p h]
    simp [effectsSince]
  have hinj : Function.Injective Effect.invoke := fun a b hab => by cases hab; rfl
  have hmap : invokesOf ((eventPath p.elements e.nid).flatMap fun n => p.listenersOf n) =
      (((eventPath p.elements e.nid).flatMap fun n => p.listenersOf n).map
        (·.callback)).map Effect.invoke := by
    simp [invokesOf, List.map_map, Function.comp_def]
  rw [heff, hmap, List.count_map_of_injective _ _ hinj]
  have hids : ((((eventPath p.elements e.nid).flatMap fun n => p.listenersOf n).map
      (·.callback)).map (·.id)).Nodup := by
    have := path_callbackIds_nodup p h _ (eventPath_nodup p.elements e.nid h.nodeUnique)
    simpa [Page.callbackIds, List.map_flatMap, List.map_map, Function.comp_def] using this
  have hnd := List.Nodup.of_map _ hids
  have hin : l.callback ∈ ((eventPath p.elements e.nid).flatMap fun n =>
      p.listenersOf n).map (·.callback) := by
    refine List.mem_map_of_mem _ (List.mem_flatMap.mpr ⟨e.nid, eventPath_head he, ?_⟩)
    rw [listenersOf_of_mem h.nodeUnique he]
    exact hl
  exact List.count_eq_one_of_mem hnd hin

/-! ## What events do to the listener lists -/

theorem step_keeps (ev : Event) (p : Page) (h : p.Inv) :
    ∀ e ∈ p.elements, ∃ e' ∈ (step ev p).elements, e'.nid = e.nid ∧
      e.listeners <+: e'.listeners ∧
      (ev ≠ Event.domContentLoaded → e'.listeners = e.listeners) := by
  intro e he
  cases ev with
  | domContentLoaded =>
    obtain ⟨g, hg, heq⟩ := handler_frame_lemma
      { p with trace := p.trace ++ [Effect.invoke ⟨0, .bootstrap⟩] }
    refine ⟨g e, ?_, ?_, (hg e).2.2.1, fun hne => absurd rfl hne⟩
    · show g e ∈ (dispatchDOMContentLoaded p).elements
      rw [dispatchDOMContentLoaded_eq p h, heq]
      exact List.mem_map_of_mem _ he
    · have := (hg e).1
      simp only [Element.shape, Prod.mk.injEq] at this
      exact this.1
  | click t =>
    refine ⟨e, ?_, rfl, List.prefix_refl _, fun _ => rfl⟩
    show e ∈ (dispatchClick t p).elements
    rw [dispatchClick_eq p h]
    exact he
  | insert pos d cs =>
    exact ⟨e, (mem_insert_iff _ _ _ _).mpr (Or.inr he), rfl, List.prefix_refl _, fun _ => rfl⟩
  | setClasses t cs =>
    refine ⟨if e.nid = t then { e with classes := cs } else e,
      List.mem_map_of_mem _ he, ?_, ?_, fun _ => ?_⟩
    · by_cases hn : e.nid = t <;> simp [hn]
    · by_cases hn : e.nid = t <;> simp [hn]
    · by_cases hn : e.nid = t <;> simp [hn]

theorem run_keeps (evs : List Event) :
    ∀ p : Page, p.Inv → ∀ e ∈ p.elements, ∃ e' ∈ (run evs p).elements, e'.nid = e.nid ∧
      e.listeners <+: e'.listeners ∧
      (Event.domContentLoaded ∉ evs → e'.listeners = e.listeners) := by
  induction evs with
  | nil =>
    intro p _ e he
    exact ⟨e, he, rfl, List.prefix_refl _, fun _ => rfl⟩
  | cons ev evs ih =>
    intro p h e he
    obtain ⟨e1, he1, hn1, hp1, hs1⟩ := step_keeps ev p h e he
    obtain ⟨e2, he2, hn2, hp2, hs2⟩ := ih (step ev p) (step_inv ev p h) e1 he1
    refine ⟨e2, he2, hn2.trans hn1, List.IsPrefix.trans hp1 hp2, fun hno => ?_⟩
    have hev : ev ≠ Event.domContentLoaded := fun heq =>
      hno (heq ▸ List.mem_cons_self _ _)
    have hevs : Event.domContentLoaded ∉ evs := fun hin => hno (List.mem_cons_of_mem _ hin)
    rw [hs2 hevs, hs1 hev]

theorem step_fresh (ev : Event) (hev : ev ≠ Event.domContentLoaded) (b : Nat) (p : Page)
    (h : p.Inv) (hb : b ≤ p.nextNode)
    (hJ : ∀ e ∈ p.elements, b ≤ e.nid → e.listeners = []) :
    b ≤ (step ev p).nextNode ∧
    ∀ e ∈ (step ev p).elements, b ≤ e.nid → e.listeners = [] := by
  cases ev with
  | domContentLoaded => exact absurd rfl hev
  | click t =>
    show b ≤ (dispatchClick t p).nextNode ∧
      ∀ e ∈ (dispatchClick t p).elements, b ≤ e.nid → e.listeners = []
    rw [dispatchClick_eq p h]
    exact ⟨hb, hJ⟩
  | insert pos d cs =>
    refine ⟨Nat.le_succ_of_le hb, fun e he hbe => ?_⟩
    rcases (mem_insert_iff _ _ _ _).mp he with rfl | he
    · rfl
    · exact hJ e he hbe
  | setClasses t cs =>
    refine ⟨hb, fun e' he' hbe => ?_⟩
    obtain ⟨e, he, rfl⟩ := List.mem_map.mp he'
    by_cases hn : e.nid = t
    · simp only [hn, if_true] at hbe ⊢
      exact hJ e he (hn ▸ hbe)
    · simp only [hn, if_false] at hbe ⊢
      exact hJ e he hbe

theorem run_fresh (evs : List Event) (hno : Event.domContentLoaded ∉ evs) (b : Nat) :
    ∀ p : Page, p.Inv → b ≤ p.nextNode →
      (∀ e ∈ p.elements, b ≤ e.nid → e.listeners = []) →
      ∀ e ∈ (run evs p).elements, b ≤ e.nid → e.listeners = [] := by
  induction evs with
  | nil => intro p _ _ hJ; exact hJ
  | cons ev evs ih =>
    intro p h hb hJ
    have hev : ev ≠ Event.domContentLoaded := fun heq =>
      hno (heq ▸ List.mem_cons_self _ _)
    have hevs : Event.domContentLoaded ∉ evs := fun hin => hno (List.mem_cons_of_mem _ hin)
    obtain ⟨hb', hJ'⟩ := step_fresh ev hev b p h hb hJ
    exact ih hevs (step ev p) (step_inv ev p h) hb' hJ'

theorem dispatch_gain (p : Page) (h : p.Inv) (e : Element) (he : e ∈ p.elements)
    (hsel : dropdownItem.selects e = true) :
    ∃ m, ⟨e.nid, e.depth, e.classes, e.listeners ++ [clickListener m]⟩ ∈
      (step Event.domContentLoaded p).elements := by
  obtain ⟨i, hi⟩ := List.getElem?_of_mem he
  have hinv : ({ p with trace := p.trace ++ [Effect.invoke ⟨0, .bootstrap⟩] } : Page).Inv :=
    h.congr rfl rfl rfl rfl
  have hel := handler_elements _ hinv.nodeUnique hinv.fnFresh
  refine ⟨p.nextFn + rankOf p.elements i, ?_⟩
  show _ ∈ (dispatchDOMContentLoaded p).elements
  rw [dispatchDOMContentLoaded_eq p h, hel]
  refine @List.getElem?_mem _ _ i _ ?_
  rw [attachFrom_getElem?]
  show Option.map _ (p.elements[i]?) = _
  rw [hi]
  simp [hsel]

/-! ## Clicks after the bootstrap -/

/-- C4: let `P` be a state of the page after the bootstrap has run (any events,
then `DOMContentLoaded`, then any events) and `t` an element that matched
`.dropdown-item` when the bootstrap ran. A click on `t` leaves the elements, the
listener lists, the console and the allocators of `P` as they are; `t` carries at
least one listener, each a click listener with the empty body, and the click
invokes the callback of each exactly once. When `DOMContentLoaded` fired only
that once, `t` carries exactly one listener. -/
theorem click_runs_callback_once (evs1 evs2 : List Event) (t : Nat) (P : Page)
    (hP : P = pageAfter (evs1 ++ Event.domContentLoaded :: evs2))
    (ht : t ∈ (querySelectorAll dropdownItem (pageAfter evs1)).1) :
    (step (Event.click t) P).elements = P.elements ∧
    (step (Event.click t) P).docListeners = P.docListeners ∧
    (step (Event.click t) P).console = P.console ∧
    (step (Event.click t) P).nextFn = P.nextFn ∧
    (step (Event.click t) P).nextNode = P.nextNode ∧
    P.listenersOf t ≠ [] ∧
    (∀ l ∈ P.listenersOf t, l.type = "click" ∧ l.callback.body = .dropdownClick ∧
      (effectsSince P (step (Event.click t) P)).count (Effect.invoke l.callback) = 1) ∧
    (Event.domContentLoaded ∉ evs1 → Event.domContentLoaded ∉ evs2 →
      ∃ n, P.listenersOf t = [⟨"click", ⟨n, .dropdownClick⟩⟩]) := by
  have hinv0 : (pageAfter evs1).Inv := pageAfter_inv evs1
  have hinvP : P.Inv := hP ▸ pageAfter_inv _
  obtain ⟨e, he, hnid⟩ := List.mem_map.mp ht
  obtain ⟨hmem, hsel⟩ := List.mem_filter.mp he
  obtain ⟨m, hm⟩ := dispatch_gain (pageAfter evs1) hinv0 e hmem hsel
  have hrun : P = run evs2 (step Event.domContentLoaded (pageAfter evs1)) := by
    rw [hP, pageAfter, run_append]
    rfl
  obtain ⟨e2, he2, hn2, hp2, hs2⟩ := run_keeps evs2 _
    (step_inv Event.domContentLoaded _ hinv0) _ hm
  rw [← hrun] at he2
  have hn2t : e2.nid = t := hn2.trans hnid
  have hlis : P.listenersOf t = e2.listeners := by
    rw [← hn2t]
    exact listenersOf_of_mem hinvP.nodeUnique he2
  have hclick : step (Event.click t) P =
      { P with trace := P.trace ++
          invokesOf ((eventPath P.elements t).flatMap fun n => P.listenersOf n) } :=
    dispatchClick_eq P hinvP t
  refine ⟨by rw [hclick], by rw [hclick], by rw [hclick], by rw [hclick], by rw [hclick],
    ?_, ?_, ?_⟩
  · rw [hlis]
    intro hnil
    rw [hnil, List.prefix_nil] at hp2
    simp at hp2
  · intro l hl
    rw [hlis] at hl
    obtain ⟨h1, h2⟩ := hinvP.ownListeners e2 he2 l hl
    refine ⟨h1, h2, ?_⟩
    have := click_count P hinvP e2 he2 l hl
    rw [hn2t] at this
    exact this
  · intro hno1 hno2
    have hempty : e.listeners = [] := by
      refine run_fresh evs1 hno1 0 _ mainJs_initial_inv (Nat.zero_le _) ?_ e hmem
        (Nat.zero_le _)
      intro a ha
      cases ha
    refine ⟨m, ?_⟩
    rw [hlis, hs2 hno2, hempty]
    rfl

theorem click_runs_callback_once_witness :
    (1 : Nat) ∈ (querySelectorAll dropdownItem (pageAfter sampleBefore)).1 ∧
    (step (Event.click 1)
        (pageAfter (sampleBefore ++ Event.domContentLoaded :: sampleLater))).elements =
      (pageAfter (sampleBefore ++ Event.domContentLoaded :: sampleLater)).elements ∧
    (step (Event.click 1)
        (pageAfter (sampleBefore ++ Event.domContentLoaded :: sampleLater))).console =
      ["SkillBridge JavaScript loaded"] ∧
    (effectsSince (pageAfter (sampleBefore ++ Event.domContentLoaded :: sampleLater))
      (step (Event.click 1)
        (pageAfter (sampleBefore ++ Event.domContentLoaded :: sampleLater)))).count
      (Effect.invoke ⟨1, .dropdownClick⟩) = 1 :=
  ⟨by decide,
   (click_runs_callback_once sampleBefore sampleLater 1 _ rfl (by decide)).1,
   ((click_runs_callback_once sampleBefore sampleLater 1 _ rfl (by decide)).2.2.1).trans
     (by decide),
   ((click_runs_callback_once sampleBefore sampleLater 1 _ rfl (by decide)).2.2.2.2.2.2.1
     ⟨"click", ⟨1, .dropdownClick⟩⟩ (by decide)).2.2⟩

/-! ## Elements added after the bootstrap -/

theorem step_trace (ev : Event) (hev : ev ≠ Event.domContentLoaded) (p : Page)
    (h : p.Inv) :
    ∃ extra, (step ev p).trace = p.trace ++ extra ∧
      ∀ ef ∈ extra, ∃ f : Fn, ef = Effect.invoke f ∧ f.body = .dropdownClick := by
  cases ev with
  | domContentLoaded => exact absurd rfl hev
  | click t =>
    refine ⟨invokesOf ((eventPath p.elements t).flatMap fun n => p.listenersOf n), ?_, ?_⟩
    · show (dispatchClick t p).trace = _
      rw [dispatchClick_eq p h]
    · intro ef hef
      obtain ⟨l, hl, rfl⟩ := List.mem_map.mp hef
      obtain ⟨n, _, hln⟩ := List.mem_flatMap.mp hl
      obtain ⟨e, he, _, hle⟩ := listenersOf_mem hln
      exact ⟨l.callback, rfl, (h.ownListeners e he l hle).2⟩
  | insert pos d cs => exact ⟨[], by simp [step, insertElement], by simp⟩
  | setClasses t cs => exact ⟨[], by simp [step, setElementClasses], by simp⟩

theorem run_trace (evs : List Event) (hno : Event.domContentLoaded ∉ evs) :
    ∀ p : Page, p.Inv →
      ∃ extra, (run evs p).trace = p.trace ++ extra ∧
        ∀ ef ∈ extra, ∃ f : Fn, ef = Effect.invoke f ∧ f.body = .dropdownClick := by
  induction evs with
  | nil => intro p _; exact ⟨[], by simp [run], by simp⟩
  | cons ev evs ih =>
    intro p h
    have hev : ev ≠ Event.domContentLoaded := fun heq =>
      hno (heq ▸ List.mem_cons_self _ _)
    have hevs : Event.domContentLoaded ∉ evs := fun hin => hno (List.mem_cons_of_mem _ hin)
    obtain ⟨x1, h1, hx1⟩ := step_trace ev hev p h
    obtain ⟨x2, h2, hx2⟩ := ih hevs (step ev p) (step_inv ev p h)
    refine ⟨x1 ++ x2, ?_, ?_⟩
    · show (run evs (step ev p)).trace = _
      rw [h2, h1, List.append_assoc]
    · intro ef hef
      rcases List.mem_append.mp hef with h' | h'
      · exact hx1 ef h'
      · exact hx2 ef h'

theorem step_nextNode (ev : Event) (p : Page) (h : p.Inv) :
    p.nextNode ≤ (step ev p).nextNode := by
  cases ev with
  | domContentLoaded =>
    show _ ≤ (dispatchDOMContentLoaded p).nextNode
    rw [dispatchDOMContentLoaded_eq p h, (handler_fields _).2.2.1]
  | click t =>
    show _ ≤ (dispatchClick t p).nextNode
    rw [dispatchClick_eq p h]
  | insert pos d cs => exact Nat.le_succ _
  | setClasses t cs => exact Nat.le_refl _

theorem run_nextNode (evs : List Event) :
    ∀ p : Page, p.Inv → p.nextNode ≤ (run evs p).nextNode := by
  induction evs with
  | nil => intro p _; exact Nat.le_refl _
  | cons ev evs ih =>
    intro p h
    exact Nat.le_trans (step_nextNode ev p h) (ih _ (step_inv ev p h))

/-- C5: let `P` be the state of the page right after the bootstrap has run and
`Q` a state reached from it by clicks and document mutations. Every element of
`Q` created after `P` has an empty listener list, whatever its classes; each
insertion among the events did put such an element in the document; the elements
of `P` have in `Q` the listeners they had in `P`; and the only effects between
`P` and `Q` are invocations of the empty click callback, so nothing was attached. -/
theorem late_elements_get_no_listener (evs1 evs2 : List Event) (P Q : Page)
    (hP : P = pageAfter (evs1 ++ [Event.domContentLoaded]))
    (hQ : Q = run evs2 P)
    (hno : Event.domContentLoaded ∉ evs2) :
    (∀ e ∈ Q.elements, P.nextNode ≤ e.nid → e.listeners = []) ∧
    (∀ (evsA evsB : List Event) (pos d : Nat) (cs : List String),
      evs2 = evsA ++ Event.insert pos d cs :: evsB →
      ∃ e ∈ Q.elements, e.nid = (run evsA P).nextNode ∧ P.nextNode ≤ e.nid ∧
        e.listeners = []) ∧
    (∀ e ∈ P.elements, Q.listenersOf e.nid = e.listeners) ∧
    (∀ ef ∈ effectsSince P Q, ∃ f : Fn, ef = Effect.invoke f ∧ f.body = .dropdownClick) ∧
    (effectsSince P Q).countP Effect.isClickAttach = 0 := by
  have hinvP : P.Inv := hP ▸ pageAfter_inv _
  have hinvQ : Q.Inv := hQ ▸ run_inv evs2 P hinvP
  obtain ⟨extra, htr, hextra⟩ := run_trace evs2 hno P hinvP
  have heff : effectsSince P Q = extra := by
    rw [effectsSince, hQ, htr, List.drop_left]
  refine ⟨?_, ?_, ?_, ?_, ?_⟩
  · rw [hQ]
    refine run_fresh evs2 hno P.nextNode P hinvP (Nat.le_refl _) ?_
    intro e he hle
    have := hinvP.nodeFresh e he
    omega
  · intro evsA evsB pos d cs hsplit
    have hinvA : (run evsA P).Inv := run_inv evsA P hinvP
    have hnoB : Event.domContentLoaded ∉ evsB := by
      intro hin
      apply hno
      rw [hsplit]
      exact List.mem_append_right _ (List.mem_cons_of_mem _ hin)
    have hmem : (⟨(run evsA P).nextNode, d, cs, []⟩ : Element) ∈
        (step (Event.insert pos d cs) (run evsA P)).elements :=
      (mem_insert_iff _ _ _ _).mpr (Or.inl rfl)
    obtain ⟨e', he', hn', _, hs'⟩ := run_keeps evsB _
      (step_inv (Event.insert pos d cs) _ hinvA) _ hmem
    have hQ' : Q = run evsB (step (Event.insert pos d cs) (run evsA P)) := by
      rw [hQ, hsplit, run_append]
      rfl
    rw [← hQ'] at he'
    refine ⟨e', he', hn', ?_, hs' hnoB⟩
    rw [hn']
    exact run_nextNode evsA P hinvP
  · intro e he
    obtain ⟨e', he', hn', _, hs'⟩ := run_keeps evs2 P hinvP e he
    rw [← hQ] at he'
    rw [← hn', listenersOf_of_mem hinvQ.nodeUnique he', hs' hno]
  · rw [heff]
    exact hextra
  · rw [heff, List.countP_eq_zero]
    intro ef hef
    obtain ⟨f, rfl, _⟩ := hextra ef hef
    simp [Effect.isClickAttach]

theorem late_elements_get_no_listener_witness :
    Event.domContentLoaded ∉ sampleLater ∧
    (∃ e ∈ (run sampleLater (pageAfter (sampleBefore ++ [Event.domContentLoaded]))).elements,
      e.nid = (run [] (pageAfter (sampleBefore ++ [Event.domContentLoaded]))).nextNode ∧
      (pageAfter (sampleBefore ++ [Event.domContentLoaded])).nextNode ≤ e.nid ∧
      e.listeners = []) ∧
    (effectsSince (pageAfter (sampleBefore ++ [Event.domContentLoaded]))
      (run sampleLater (pageAfter (sampleBefore ++ [Event.domContentLoaded])))).countP
      Effect.isClickAttach = 0 :=
  ⟨by decide,
   (late_elements_get_no_listener sampleBefore sampleLater _ _ rfl rfl (by decide)).2.1
     [] [Event.click 2, Event.click 1, Event.setClasses 0 ["dropdown-menu", "show"]]
     2 1 ["dropdown-item"] rfl,
   (late_elements_get_no_listener sampleBefore sampleLater _ _ rfl rfl (by decide)).2.2.2.2⟩

/-! ## Running the handler again -/

theorem handler_wf (p : Page) (hU : p.NodeUnique) (hF : p.FnFresh) :
    (domContentLoadedHandler p).NodeUnique ∧ (domContentLoadedHandler p).FnFresh := by
  constructor
  · unfold Page.NodeUnique
    rw [map_nid_of_shape (handler_shape p)]
    exact hU
  · intro e' he' l hl
    rw [handler_elements p hU hF] at he'
    rw [(handler_fields p).2.2.2.1]
    rcases attachFrom_listener_mem _ _ e' l he' hl with ⟨e, he, hle⟩ | ⟨m, _, h2, rfl⟩
    · have := hF e he l hle
      omega
    · simpa [clickListener, List.countP_eq_length_filter] using h2

theorem countP_of_shape {es es' : List Element}
    (h : es.map Element.shape = es'.map Element.shape) :
    es.countP dropdownItem.selects = es'.countP dropdownItem.selects := by
  have hsel : dropdownItem.selects =
      (fun s : Nat × Nat × List String => decide ("dropdown-item" ∈ s.2.2)) ∘
        Element.shape := by
    funext e
    rfl
  rw [hsel, ← List.countP_map, ← List.countP_map, h]

theorem rankOf_of_shape {es es' : List Element}
    (h : es.map Element.shape = es'.map Element.shape) (i : Nat) :
    rankOf es i = rankOf es' i := by
  unfold rankOf
  rw [← List.countP_eq_length_filter, ← List.countP_eq_length_filter]
  apply countP_of_shape
  rw [List.map_take, List.map_take, h]

theorem handler_getElem? (p : Page) (hU : p.NodeUnique) (hF : p.FnFresh) (i : Nat)
    (e : Element) (hi : p.elements[i]? = some e) :
    (domContentLoadedHandler p).elements[i]? =
      some (if dropdownItem.selects e then
        ⟨e.nid, e.depth, e.classes,
          e.listeners ++ [clickListener (p.nextFn + rankOf p.elements i)]⟩
      else e) := by
  rw [handler_elements p hU hF, attachFrom_getElem?, hi]
  rfl

theorem iterate_console (k : Nat) :
    ∀ p : Page, (domContentLoadedHandler^[k] p).console =
      p.console ++ List.replicate k logMessage := by
  induction k with
  | zero => intro p; simp
  | succ k ih =>
    intro p
    rw [Function.iterate_succ_apply, ih, (handler_fields p).2.1, List.replicate_succ,
      List.append_assoc]
    rfl

theorem iterate_elements (k : Nat) :
    ∀ (p : Page), p.NodeUnique → p.FnFresh →
      ∀ (i : Nat) (e : Element), p.elements[i]? = some e →
        (domContentLoadedHandler^[k] p).elements[i]? =
          some (if dropdownItem.selects e then
            ⟨e.nid, e.depth, e.classes, e.listeners ++ (List.range k).map fun j =>
              clickListener (p.nextFn + j * p.elements.countP dropdownItem.selects +
                rankOf p.elements i)⟩
          else e) := by
  induction k with
  | zero =>
    intro p _ _ i e hi
    by_cases hsel : dropdownItem.selects e = true <;> simp [hsel, hi]
  | succ k ih =>
    intro p hU hF i e hi
    obtain ⟨hU', hF'⟩ := handler_wf p hU hF
    have hshape := handler_shape p
    have h1 := handler_getElem? p hU hF i e hi
    have hnext : (domContentLoadedHandler p).nextFn =
        p.nextFn + p.elements.countP dropdownItem.selects := by
      rw [(handler_fields p).2.2.2.1, List.countP_eq_length_filter]
    rw [Function.iterate_succ_apply, ih _ hU' hF' i _ h1, countP_of_shape hshape,
      rankOf_of_shape hshape, hnext]
    by_cases hsel : dropdownItem.selects e = true
    · have hsel' : dropdownItem.selects
          ⟨e.nid, e.depth, e.classes,
            e.listeners ++ [clickListener (p.nextFn + rankOf p.elements i)]⟩ = true := hsel
      simp only [hsel, if_true, hsel', List.append_assoc, Option.some.injEq,
        Element.mk.injEq, true_and, List.append_cancel_left_eq]
      rw [List.range_succ_eq_map, List.map_cons, List.map_map]
      simp only [Nat.zero_mul, Nat.add_zero, List.singleton_append, List.cons.injEq, true_and]
      refine List.map_congr_left fun j _ => ?_
      simp only [Function.comp, Nat.succ_eq_add_one, Nat.add_mul, Nat.one_mul]
      congr 1
      omega
    · simp [hsel]

/-- C8: running the handler `k` times on the same document appends `k` copies of
the message to the console and gives every matching element `k` more click
listeners, one per run, each a function object of its own (the `k` listeners are
pairwise distinct), while the other elements keep their lists. So the handler is
not idempotent: a second run changes the console, and the listener lists too as
soon as one element matches. -/
theorem handler_not_idempotent (p : Page) (hU : p.NodeUnique) (hF : p.FnFresh) (k : Nat) :
    (domContentLoadedHandler^[k] p).console = p.console ++ List.replicate k logMessage ∧
    (∀ (i : Nat) (e : Element), p.elements[i]? = some e → dropdownItem.selects e = true →
      (domContentLoadedHandler^[k] p).elements[i]? =
        some ⟨e.nid, e.depth, e.classes, e.listeners ++ (List.range k).map fun j =>
          ⟨"click", ⟨p.nextFn + j * p.elements.countP dropdownItem.selects +
            rankOf p.elements i, .dropdownClick⟩⟩⟩ ∧
      ((List.range k).map fun j =>
          (⟨"click", ⟨p.nextFn + j * p.elements.countP dropdownItem.selects +
            rankOf p.elements i, .dropdownClick⟩⟩ : Listener)).Nodup ∧
      ((List.range k).map fun j =>
          (⟨"click", ⟨p.nextFn + j * p.elements.countP dropdownItem.selects +
            rankOf p.elements i, .dropdownClick⟩⟩ : Listener)).length = k) ∧
    (∀ (i : Nat) (e : Element), p.elements[i]? = some e → dropdownItem.selects e = false →
      (domContentLoadedHandler^[k] p).elements[i]? = some e) ∧
    domContentLoadedHandler (domContentLoadedHandler p) ≠ domContentLoadedHandler p ∧
    ((∃ e ∈ p.elements, dropdownItem.selects e = true) →
      (domContentLoadedHandler (domContentLoadedHandler p)).elements ≠
        (domContentLoadedHandler p).elements) := by
  refine ⟨iterate_console k p, ?_, ?_, ?_, ?_⟩
  · intro i e hi hsel
    refine ⟨?_, ?_, by simp⟩
    · rw [iterate_elements k p hU hF i e hi]
      simp [hsel, clickListener]
    · have hpos : 0 < p.elements.countP dropdownItem.selects :=
        List.countP_pos_iff.mpr ⟨e, List.getElem?_mem hi, hsel⟩
      refine (List.nodup_range k).map_on ?_
      intro a _ b _ hab
      simp only [Listener.mk.injEq, Fn.mk.injEq, and_true, true_and] at hab
      have hmul : a * p.elements.countP dropdownItem.selects =
          b * p.elements.countP dropdownItem.selects := by omega
      exact Nat.eq_of_mul_eq_mul_right hpos hmul
  · intro i e hi hsel
    rw [iterate_elements k p hU hF i e hi]
    simp [hsel]
  · intro heq
    have h1 := iterate_console 2 p
    have h2 := iterate_console 1 p
    have h12 : (domContentLoadedHandler^[2] p).console =
        (domContentLoadedHandler^[1] p).console := congrArg Page.console heq
    rw [h1, h2] at h12
    have := congrArg List.length h12
    simp at this
  · rintro ⟨e, he, hsel⟩ heq
    obtain ⟨i, hi⟩ := List.getElem?_of_mem he
    have h2 := iterate_elements 2 p hU hF i e hi
    have h1 := iterate_elements 1 p hU hF i e hi
    have h12 : (domContentLoadedHandler^[2] p).elements[i]? =
        (domContentLoadedHandler^[1] p).elements[i]? := congrArg (fun l => l[i]?) heq
    rw [h2, h1] at h12
    simp only [hsel, if_true, Option.some.injEq, Element.mk.injEq, true_and,
      List.append_cancel_left_eq] at h12
    have := congrArg List.length h12
    simp at this

theorem handler_not_idempotent_witness :
    samplePage.NodeUnique ∧ samplePage.FnFresh ∧
    (domContentLoadedHandler^[3] samplePage).console =
      ["SkillBridge JavaScript loaded", "SkillBridge JavaScript loaded",
       "SkillBridge JavaScript loaded"] ∧
    (domContentLoadedHandler^[3] samplePage).elements[1]? =
      some ⟨1, 1, ["dropdown-item"],
        [⟨"click", ⟨2, .dropdownClick⟩⟩, ⟨"click", ⟨4, .dropdownClick⟩⟩,
         ⟨"click", ⟨6, .dropdownClick⟩⟩]⟩ :=
  ⟨by decide, by decide,
   (handler_not_idempotent samplePage (by decide) (by decide) 3).1,
   ((handler_not_idempotent samplePage (by decide) (by decide) 3).2.1 1 _ rfl
     (by decide)).1.trans (by decide)⟩

end SkillBridge
